import Mathlib

set_option maxHeartbeats 1000000

namespace DnsMonitor

/-! # Data model

Shallow embedding of the dns-monitor repository (Go). Strings, lists and
naturals model Go strings, slices and non-negative integers; Go's `error`
values are modelled by an explicit error type that can represent `fmt.Errorf`
wrapping via `%w`. -/

/-- DNS record, from `internal/common/types.go` (`DNSRecord`): record kind
(`Type`), owner name, canonical textual value and TTL. -/
structure DNSRecord where
  type : String
  name : String
  value : String
  ttl : Nat
deriving DecidableEq, Repr

/-- Go `error` values as produced by `errors.New` / `fmt.Errorf`; the `wrap`
constructor models `fmt.Errorf("...: %w", err)`. -/
inductive GoError where
  | simple (msg : String)
  | wrap (msg : String) (inner : GoError)
deriving DecidableEq, Repr

/-- The `Error()` message of a `GoError`: `fmt.Errorf("<msg>: %w", inner)`
renders as `<msg>: <inner.Error()>`. -/
def GoError.errorMsg : GoError → String
  | .simple m => m
  | .wrap m inner => m ++ ": " ++ inner.errorMsg

/-! # Change detector (internal/storage/local.go, `dns` package) -/

/-- `formatRecordKey` from local.go: `fmt.Sprintf("%s:%s", recordType, recordName)`. -/
def formatRecordKey (recordType recordName : String) : String :=
  recordType ++ ":" ++ recordName

/-- The grouping key of a record, as used by `buildRecordMap`. -/
def keyOf (r : DNSRecord) : String := formatRecordKey r.type r.name

/-- Body `"<Type> <Name> -> <Value>"` shared by the four change formats
(`fmt.Sprintf("TAG: %s %s -> %s", record.Type, record.Name, record.Value)`). -/
def entryBody (r : DNSRecord) : String :=
  r.type ++ " " ++ r.name ++ " -> " ++ r.value

def fmtNew (r : DNSRecord) : String := "NEW: " ++ entryBody r

def fmtAdded (r : DNSRecord) : String := "ADDED: " ++ entryBody r

def fmtRemoved (r : DNSRecord) : String := "REMOVED: " ++ entryBody r

def fmtDeleted (r : DNSRecord) : String := "DELETED: " ++ entryBody r

/-- One step of `buildRecordMap`'s `recordMap[key] = append(recordMap[key], record)`.
The Go map is modelled as an association list in key-insertion order; the final
lexicographic sort in `DetectChanges` makes the (unspecified) Go map iteration
order irrelevant to the returned list. -/
def insertRecord : List (String × List DNSRecord) → String → DNSRecord →
    List (String × List DNSRecord)
  | [], k, r => [(k, [r])]
  | (k', rs) :: rest, k, r =>
    if k' = k then (k', rs ++ [r]) :: rest
    else (k', rs) :: insertRecord rest k r

/-- `buildRecordMap` from local.go: groups records by `Type:Name`. -/
def buildRecordMap (records : List DNSRecord) : List (String × List DNSRecord) :=
  records.foldl (fun m r => insertRecord m (keyOf r) r) []

/-- Go map read `recordMap[key]` with its `exists` flag. -/
def lookupRecs (m : List (String × List DNSRecord)) (k : String) :
    Option (List DNSRecord) :=
  (m.find? (fun p => p.1 == k)).map Prod.snd

/-- `createValueMap` from local.go: the `map[string]bool` of values, as its
characteristic function (a missing key reads as `false` in Go). -/
def createValueMap (records : List DNSRecord) : String → Bool :=
  fun v => records.any (fun r => r.value == v)

/-- `detectValueChanges` from local.go: values present in the new group but not
the old value set emit `ADDED`, values present in the old group but not the new
value set emit `REMOVED`. -/
def detectValueChanges (oldRecs newRecs : List DNSRecord) : List String :=
  (newRecs.filter (fun r => !createValueMap oldRecs r.value)).map fmtAdded
    ++ (oldRecs.filter (fun r => !createValueMap newRecs r.value)).map fmtRemoved

/-- `formatNewRecordChanges` from local.go. -/
def formatNewRecordChanges (records : List DNSRecord) : List String :=
  records.map fmtNew

/-- `detectAddedAndModifiedRecords` from local.go: iterate the new grouping; a
key absent from the old grouping yields `NEW` entries, a shared key is compared
value-wise. -/
def detectAddedAndModifiedRecords (oldMap newMap : List (String × List DNSRecord)) :
    List String :=
  (newMap.map (fun p =>
    match lookupRecs oldMap p.1 with
    | some oldRecs => detectValueChanges oldRecs p.2
    | none => formatNewRecordChanges p.2)).flatten

/-- `detectDeletedRecords` from local.go: keys of the old grouping absent from
the new grouping yield one `DELETED` entry per record of the old group. -/
def detectDeletedRecords (oldMap newMap : List (String × List DNSRecord)) :
    List String :=
  (oldMap.map (fun p =>
    if (lookupRecs newMap p.1).isSome then []
    else p.2.map fmtDeleted)).flatten

/-- The change list of `DetectChanges` before the final `sort.Strings`. -/
def unsortedChanges (oldRecords newRecords : List DNSRecord) : List String :=
  detectAddedAndModifiedRecords (buildRecordMap oldRecords) (buildRecordMap newRecords)
    ++ detectDeletedRecords (buildRecordMap oldRecords) (buildRecordMap newRecords)

/-- `DetectChanges` from local.go: collect `NEW`/`ADDED`/`REMOVED`/`DELETED`
entries and sort them lexicographically (`sort.Strings`). -/
def DetectChanges (oldRecords newRecords : List DNSRecord) : List String :=
  List.insertionSort (· ≤ ·) (unsortedChanges oldRecords newRecords)

/-! ## Canonical per-record description of the detector output

The following definitions are proof infrastructure: a membership-based
description of the detector's output multiset, later proved to be a
permutation of `unsortedChanges`. -/

/-- Some record of `l` shares the grouping key of `r`. -/
def hasKeyIn (l : List DNSRecord) (r : DNSRecord) : Bool :=
  l.any (fun x => keyOf x == keyOf r)

/-- Some record of `l` shares both the grouping key and the value of `r`. -/
def hasValueIn (l : List DNSRecord) (r : DNSRecord) : Bool :=
  l.any (fun x => keyOf x == keyOf r && x.value == r.value)

/-- Canonical (order-independent) description of the detector output before
sorting: `NEW` for new-keyed new records, `ADDED`/`REMOVED` for value changes
under shared keys, `DELETED` for old records under vanished keys. -/
def canonChanges (o n : List DNSRecord) : List String :=
  (n.filter (fun r => !hasKeyIn o r)).map fmtNew
    ++ (n.filter (fun r => hasKeyIn o r && !hasValueIn o r)).map fmtAdded
    ++ (o.filter (fun r => hasKeyIn n r && !hasValueIn n r)).map fmtRemoved
    ++ (o.filter (fun r => !hasKeyIn n r)).map fmtDeleted

/-- Per-record contribution of a new-snapshot record to the unsorted output. -/
def newOrAddedEntries (o : List DNSRecord) (r : DNSRecord) : List String :=
  if hasKeyIn o r then (if hasValueIn o r then [] else [fmtAdded r]) else [fmtNew r]

/-- Per-record `REMOVED` contribution of an old-snapshot record whose key
survives in the new snapshot. -/
def removedEntries (n : List DNSRecord) (r : DNSRecord) : List String :=
  if hasValueIn n r then [] else [fmtRemoved r]

/-- Per-record `DELETED` contribution of an old-snapshot record. -/
def deletedEntries (n : List DNSRecord) (r : DNSRecord) : List String :=
  if hasKeyIn n r then [] else [fmtDeleted r]

/-- Key-insertion step of the key list of `buildRecordMap`. -/
def insertKey (ks : List String) (k : String) : List String :=
  if k ∈ ks then ks else ks ++ [k]

/-- Keys of `buildRecordMap records` in first-occurrence order. -/
def keyList (records : List DNSRecord) : List String :=
  records.foldl (fun ks r => insertKey ks (keyOf r)) []

/-- The group of `records` under key `k`. -/
def groupFor (records : List DNSRecord) (k : String) : List DNSRecord :=
  records.filter (fun r => keyOf r == k)

/-- Closed form of `buildRecordMap`: keys in first-occurrence order, each paired
with its (order-preserving) group. -/
def canonMap (records : List DNSRecord) : List (String × List DNSRecord) :=
  (keyList records).map (fun k => (k, groupFor records k))

/-- Tag swap on a formatted change entry: `ADDED` ↔ `REMOVED`, `NEW` ↔ `DELETED`
(character-list implementation). -/
def swapTagChars (cs : List Char) : List Char :=
  if cs.take 5 = "NEW: ".data then "DELETED: ".data ++ cs.drop 5
  else if cs.take 7 = "ADDED: ".data then "REMOVED: ".data ++ cs.drop 7
  else if cs.take 9 = "REMOVED: ".data then "ADDED: ".data ++ cs.drop 9
  else if cs.take 9 = "DELETED: ".data then "NEW: ".data ++ cs.drop 9
  else cs

/-- Tag swap on a formatted change entry, on strings. -/
def swapTag (s : String) : String := String.mk (swapTagChars s.data)

/-- The TTL-blind part of a record: `(Type, Name, Value)`. -/
def stripTTL (r : DNSRecord) : String × String × String := (r.type, r.name, r.value)

/-! # Retry executor (internal/common, `RetryWithExponentialBackoff`)

The Go function takes a context, an attempt budget, an initial delay and a
closure. The embedding drops the delay values (they never influence the
returned value, only wall-clock timing), threads the closure's captured state
explicitly as `σ`, models `ctx.Done()` firing during the wait after attempt `i`
as `cancelled i = true`, and additionally returns the number of invocations of
the operation performed. -/

/-- `fmt.Errorf("operation failed after %d attempts: %w", attempts, lastErr)`.
(`lastErr = none` can only arise for a zero attempt budget; Go's `%w` renders a
nil error as `%!w(<nil>)`.) -/
def retryAggregateErr (attempts : Nat) : Option GoError → GoError
  | some e => .wrap ("operation failed after " ++ toString attempts ++ " attempts") e
  | none => .simple ("operation failed after " ++ toString attempts ++ " attempts: %!w(<nil>)")

/-- The retry loop of `RetryWithExponentialBackoff`: `i` attempts already made,
`remaining` attempts left, `s` the closure state, last failure carried for the
aggregate error. Returns (final state, returned error, invocation count). -/
def retryAux {σ : Type} (operation : σ → Nat → σ × Option GoError) (cancelled : Nat → Bool)
    (ctxErr : GoError) (attempts : Nat) :
    Nat → Nat → σ → Option GoError → σ × Option GoError × Nat
  | i, 0, s, lastErr => (s, some (retryAggregateErr attempts lastErr), i)
  | i, remaining + 1, s, _ =>
    match operation s i with
    | (s', none) => (s', none, i + 1)
    | (s', some err) =>
      if cancelled i then (s', some ctxErr, i + 1)
      else retryAux operation cancelled ctxErr attempts (i + 1) remaining s' (some err)

/-- `RetryWithExponentialBackoff` from internal/common: run the operation up to
`attempts` times, return success immediately, abort with the context error if
cancellation fires during a backoff wait, otherwise return the aggregate error. -/
def RetryWithExponentialBackoff {σ : Type} (operation : σ → Nat → σ × Option GoError)
    (cancelled : Nat → Bool) (ctxErr : GoError) (attempts : Nat) (init : σ) :
    σ × Option GoError × Nat :=
  retryAux operation cancelled ctxErr attempts 0 attempts init none

/-- A context that is never cancelled. -/
def neverCancelled : Nat → Bool := fun _ => false

/-! # Record fetcher (internal/storage/local.go, `dns` package) -/

/-- A DNS response message: response code (`Rcode`, `0` = success) and answer
records. The answers are carried as already-parsed `DNSRecord`s:
`parseDNSRecord` is a pure per-answer conversion and the claims under proof do
not depend on its internals. -/
structure DNSMsg where
  rcode : Nat
  answer : List DNSRecord
deriving DecidableEq, Repr

/-- Environment for a fetch: the resolver's reply to the `i`-th attempt of the
query for `(domain, recordType)` (`Exchange`), and whether `ctx.Done()` fires
during the backoff wait after attempt `i` of that query. -/
structure FetchEnv where
  exchange : String → String → Nat → Except String DNSMsg
  cancelledDuringWait : String → String → Nat → Bool

/-- `ctx.Err()` after cancellation. -/
def ctxCanceledErr : GoError := .simple "context canceled"

/-- The retried operation of `queryDNS`: one `Exchange` call; a transport error
or a non-success `Rcode` is a failure, and the closure state is the captured
`resp` pointer (`none` models a nil response). -/
def queryOperation (env : FetchEnv) (domainName recordType : String) :
    Option DNSMsg → Nat → Option DNSMsg × Option GoError :=
  fun _ i =>
    match env.exchange domainName recordType i with
    | .error e => (none, some (.wrap "DNS query failed" (.simple e)))
    | .ok m =>
      if m.rcode == 0 then (some m, none)
      else (some m, some (.simple ("DNS query returned non-success response: " ++ toString m.rcode)))

/-- `queryDNS` from local.go: the operation under
`RetryWithExponentialBackoff(ctx, 3, 500ms, operation)`; returns the captured
response and the retry error. -/
def queryDNS (env : FetchEnv) (domainName recordType : String) :
    Option DNSMsg × Option GoError :=
  let r := RetryWithExponentialBackoff (queryOperation env domainName recordType)
    (env.cancelledDuringWait domainName recordType) ctxCanceledErr 3 none
  (r.1, r.2.1)

/-- The fixed record-kind set of the fetcher (`dns.TypeMX/TXT/CNAME/A`). -/
def recordTypes : List String := ["MX", "TXT", "CNAME", "A"]

/-! # Configuration and domain enumerator -/

/-- The configuration fields consumed by the enumerator (`common.Config`). -/
structure Config where
  domain : String
  customDkimSelectors : List String
  customSubdomains : List String
  customDomains : List String
deriving Repr

/-- Recursion of `deduplicate` with the Go `seen` set as the list of strings
already emitted. -/
def dedupAux : List String → List String → List String
  | _, [] => []
  | seen, x :: xs => if x ∈ seen then dedupAux seen xs else x :: dedupAux (x :: seen) xs

/-- First-occurrence deduplication of a string slice (the repository's
`deduplicate`, exercised by `TestDeduplicate`). -/
def deduplicate (l : List String) : List String := dedupAux [] l

/-- The candidate list before deduplication: the four base-derived names, the
selector DKIM names, the custom subdomain names and the custom full names. -/
def rawDomainsToCheck (config : Config) : List String :=
  [config.domain,
   "_dmarc." ++ config.domain,
   "_domainkey." ++ config.domain,
   "www." ++ config.domain]
    ++ config.customDkimSelectors.map (fun selector => selector ++ "._domainkey." ++ config.domain)
    ++ config.customSubdomains.map (fun sub => sub ++ "." ++ config.domain)
    ++ config.customDomains

/-- Modelled from the spec: the repository's current `generateDomainsToCheck`
(the deduplicating version with custom-subdomain support that
`TestGenerateDomainsToCheck` and `TestDeduplicate` exercise) is not present
under src/ — only an older, non-deduplicating revision and the unit tests are.
Per §4.1 the output is the deduplicated collection of `base`, `_dmarc.<base>`,
`_domainkey.<base>`, `www.<base>`, `<selector>._domainkey.<base>`,
`<label>.<base>` and every custom full domain name verbatim. -/
def generateDomainsToCheck (config : Config) : List String :=
  deduplicate (rawDomainsToCheck config)

/-- Body of the inner fetch loop of `FetchDNSRecords`: skip the pair on a query
error or a non-success response, otherwise append the parsed answers. (A `nil`
response paired with a `nil` error cannot be produced by `queryDNS`; that
unreachable branch also skips.) -/
def fetchPairStep (env : FetchEnv) (acc : List DNSRecord)
    (domainName recordType : String) : List DNSRecord :=
  match queryDNS env domainName recordType with
  | (_, some _) => acc
  | (resp, none) =>
    match resp with
    | some m => if m.rcode == 0 then acc ++ m.answer else acc
    | none => acc

/-- `FetchDNSRecords` from local.go: iterate all `(domain, recordType)` pairs
sequentially, collecting answers; the function returns `nil` as its error on
every path. -/
def FetchDNSRecords (env : FetchEnv) (config : Config) : List DNSRecord × Option GoError :=
  ((generateDomainsToCheck config).foldl (fun acc domainName =>
      recordTypes.foldl (fun acc2 recordType => fetchPairStep env acc2 domainName recordType) acc)
    [], none)

/-- The answers contributed by one `(domain, recordType)` pair: its records if
the retried query succeeded, nothing otherwise. -/
def queryAnswers (env : FetchEnv) (domainName recordType : String) : List DNSRecord :=
  match queryDNS env domainName recordType with
  | (some m, none) => if m.rcode == 0 then m.answer else []
  | _ => []

/-- Best-effort collection as the spec words it: the records collected from
exactly the successful queries, each failed pair contributing nothing. -/
def fetchCollected (env : FetchEnv) (config : Config) : List DNSRecord :=
  ((generateDomainsToCheck config).map (fun domainName =>
    (recordTypes.map (fun recordType => queryAnswers env domainName recordType)).flatten)).flatten

/-- A fetch environment in which every `Exchange` call fails at the transport
level and the caller's context is already cancelled, so every retry wait
observes `ctx.Done()`. -/
def envCancelAll : FetchEnv where
  exchange := fun _ _ _ => .error "connection refused"
  cancelledDuringWait := fun _ _ _ => true

/-- A minimal configuration used for concrete evaluations. -/
def cfgExample : Config where
  domain := "example.com"
  customDkimSelectors := []
  customSubdomains := []
  customDomains := []

/-! # Scheduler check cycle (main.go `performCheck`) -/

/-- Collaborator outcomes for one check cycle: the fetch result, the
`SavePreviousState` outcome, and the error-notification toggle. -/
structure CheckEnv where
  fetchResult : List DNSRecord × Option GoError
  saveResult : Option GoError
  notifyOnErrors : Bool

/-- Observable outcome of one `performCheck` call: the in-memory previous state
afterwards and which side effects were performed. -/
structure CheckTrace where
  prevState : List DNSRecord
  saveAttempted : Bool
  changeNotificationSent : Bool
  errorNotificationSent : Bool
deriving DecidableEq, Repr

/-- `performCheck` from main.go: on fetch error, optionally notify and return
leaving the state unchanged; on changes, notify, attempt to persist, and update
the in-memory state regardless of the save outcome; on no changes, do nothing. -/
def performCheck (env : CheckEnv) (prevState : List DNSRecord) : CheckTrace :=
  match env.fetchResult with
  | (_, some _) =>
    { prevState := prevState, saveAttempted := false, changeNotificationSent := false,
      errorNotificationSent := env.notifyOnErrors }
  | (currentRecords, none) =>
    let changes := DetectChanges prevState currentRecords
    if changes.length > 0 then
      { prevState := currentRecords, saveAttempted := true, changeNotificationSent := true,
        errorNotificationSent := env.saveResult.isSome && env.notifyOnErrors }
    else
      { prevState := prevState, saveAttempted := false, changeNotificationSent := false,
        errorNotificationSent := false }

/-! # Basic lemmas about the detector's grouping structures -/

theorem bool_eq_of_iff {a b : Bool} (h : a = true ↔ b = true) : a = b := by
  cases a <;> cases b <;> simp_all

theorem mem_groupFor {l : List DNSRecord} {k : String} {r : DNSRecord} :
    r ∈ groupFor l k ↔ r ∈ l ∧ keyOf r = k := by
  simp [groupFor, List.mem_filter]

theorem hasKeyIn_iff {l : List DNSRecord} {r : DNSRecord} :
    hasKeyIn l r = true ↔ ∃ x ∈ l, keyOf x = keyOf r := by
  simp [hasKeyIn, List.any_eq_true]

theorem hasValueIn_iff {l : List DNSRecord} {r : DNSRecord} :
    hasValueIn l r = true ↔ ∃ x ∈ l, keyOf x = keyOf r ∧ x.value = r.value := by
  simp [hasValueIn, List.any_eq_true]

theorem mem_foldl_insertKey (l : List DNSRecord) :
    ∀ (ks : List String) (a : String),
      a ∈ l.foldl (fun ks r => insertKey ks (keyOf r)) ks ↔ a ∈ ks ∨ ∃ r ∈ l, keyOf r = a := by
  induction l with
  | nil => simp
  | cons r l ih =>
    intro ks a
    rw [List.foldl_cons, ih]
    unfold insertKey
    split
    · next hmem =>
      constructor
      · rintro (h | h)
        · exact Or.inl h
        · exact Or.inr ⟨_, by simp [h.choose_spec], h.choose_spec.2⟩
      · rintro (h | ⟨x, hx, hkey⟩)
        · exact Or.inl h
        · rcases List.mem_cons.mp hx with rfl | hx
          · exact Or.inl (hkey ▸ hmem)
          · exact Or.inr ⟨x, hx, hkey⟩
    · constructor
      · rintro (h | h)
        · rcases List.mem_append.mp h with h | h
          · exact Or.inl h
          · exact Or.inr ⟨r, by simp, (List.mem_singleton.mp h).symm⟩
        · exact Or.inr ⟨_, by simp [h.choose_spec.1], h.choose_spec.2⟩
      · rintro (h | ⟨x, hx, hkey⟩)
        · exact Or.inl (List.mem_append.mpr (Or.inl h))
        · rcases List.mem_cons.mp hx with rfl | hx
          · exact Or.inl (List.mem_append.mpr (Or.inr (by simp [hkey])))
          · exact Or.inr ⟨x, hx, hkey⟩

theorem mem_keyList {l : List DNSRecord} {a : String} :
    a ∈ keyList l ↔ ∃ r ∈ l, keyOf r = a := by
  rw [keyList, mem_foldl_insertKey]
  simp

theorem nodup_foldl_insertKey (l : List DNSRecord) :
    ∀ ks : List String, ks.Nodup → (l.foldl (fun ks r => insertKey ks (keyOf r)) ks).Nodup := by
  induction l with
  | nil => simp only [List.foldl_nil]; exact fun _ h => h
  | cons r l ih =>
    intro ks hks
    rw [List.foldl_cons]
    apply ih
    unfold insertKey
    split
    · exact hks
    · next hmem => simp [List.nodup_append, hks, hmem]

theorem keyList_nodup (l : List DNSRecord) : (keyList l).Nodup :=
  nodup_foldl_insertKey l [] List.nodup_nil

theorem groupFor_eq_nil_of_not_mem_keyList {l : List DNSRecord} {k : String}
    (h : k ∉ keyList l) : groupFor l k = [] := by
  rw [groupFor, List.filter_eq_nil_iff]
  intro r hr hkey
  exact h (mem_keyList.mpr ⟨r, hr, by simpa using hkey⟩)

theorem keyList_append (l : List DNSRecord) (r : DNSRecord) :
    keyList (l ++ [r]) = insertKey (keyList l) (keyOf r) := by
  simp [keyList, List.foldl_append]

theorem groupFor_append (l : List DNSRecord) (r : DNSRecord) (k : String) :
    groupFor (l ++ [r]) k = groupFor l k ++ (if keyOf r == k then [r] else []) := by
  simp only [groupFor, List.filter_append, List.filter_cons, List.filter_nil]

theorem insertRecord_map_mem (F : String → List DNSRecord) (r : DNSRecord) :
    ∀ (ks : List String) (k : String), k ∈ ks → ks.Nodup →
      insertRecord (ks.map (fun k' => (k', F k'))) k r
        = ks.map (fun k' => (k', if k' = k then F k' ++ [r] else F k')) := by
  intro ks
  induction ks with
  | nil => simp
  | cons k₀ ks ih =>
    intro k hmem hnd
    simp only [List.map_cons, insertRecord]
    by_cases hk : k₀ = k
    · subst hk
      rw [if_pos rfl, if_pos rfl]
      congr 1
      apply (List.map_congr_left _).symm
      intro a ha
      have : a ≠ k₀ := fun h => (List.nodup_cons.mp hnd).1 (h ▸ ha)
      simp [this]
    · rw [if_neg hk, if_neg hk]
      have hmem' : k ∈ ks := by
        rcases List.mem_cons.mp hmem with h | h
        · exact absurd h.symm hk
        · exact h
      rw [ih k hmem' (List.nodup_cons.mp hnd).2]

theorem insertRecord_map_not_mem (F : String → List DNSRecord) (r : DNSRecord) :
    ∀ (ks : List String) (k : String), k ∉ ks →
      insertRecord (ks.map (fun k' => (k', F k'))) k r
        = ks.map (fun k' => (k', F k')) ++ [(k, [r])] := by
  intro ks
  induction ks with
  | nil => simp [insertRecord]
  | cons k₀ ks ih =>
    intro k hmem
    have hk : k₀ ≠ k := fun h => hmem (h ▸ List.mem_cons_self k₀ ks)
    simp only [List.map_cons, insertRecord, if_neg hk, List.cons_append]
    rw [ih k (fun h => hmem (List.mem_cons_of_mem _ h))]

theorem canonMap_append (l : List DNSRecord) (r : DNSRecord) :
    canonMap (l ++ [r]) = insertRecord (canonMap l) (keyOf r) r := by
  by_cases hmem : keyOf r ∈ keyList l
  · rw [canonMap, keyList_append, insertKey, if_pos hmem, canonMap,
      insertRecord_map_mem (groupFor l) r (keyList l) (keyOf r) hmem (keyList_nodup l)]
    apply List.map_congr_left
    intro k hk
    rw [groupFor_append]
    by_cases hkk : k = keyOf r
    · simp [hkk]
    · have : (keyOf r == k) = false := by simpa using fun h => hkk h.symm
      simp [hkk, this]
  · rw [canonMap, keyList_append, insertKey, if_neg hmem, List.map_append, canonMap,
      insertRecord_map_not_mem (groupFor l) r (keyList l) (keyOf r) hmem]
    congr 1
    · apply List.map_congr_left
      intro k hk
      rw [groupFor_append]
      have hkk : (keyOf r == k) = false := by
        simp only [beq_eq_false_iff_ne, ne_eq]
        exact fun h => hmem (h ▸ hk)
      simp [hkk]
    · simp [groupFor_append, groupFor_eq_nil_of_not_mem_keyList hmem]

theorem buildRecordMap_eq (l : List DNSRecord) : buildRecordMap l = canonMap l := by
  induction l using List.reverseRecOn with
  | nil => simp [buildRecordMap, canonMap, keyList]
  | append_singleton l r ih =>
    rw [buildRecordMap, List.foldl_append, List.foldl_cons, List.foldl_nil, ← buildRecordMap,
      ih, canonMap_append]

theorem lookupRecs_map (F : String → List DNSRecord) :
    ∀ (ks : List String) (k : String),
      lookupRecs (ks.map (fun k' => (k', F k'))) k
        = if k ∈ ks then some (F k) else none := by
  intro ks
  induction ks with
  | nil => simp [lookupRecs]
  | cons k₀ ks ih =>
    intro k
    simp only [List.map_cons, lookupRecs, List.find?_cons]
    by_cases hk : k₀ = k
    · subst hk
      simp
    · have : (k₀ == k) = false := by simpa using hk
      rw [this]
      simp only [lookupRecs] at ih
      rw [ih k]
      have : (k ∈ k₀ :: ks) ↔ k ∈ ks := by
        simp [List.mem_cons, fun h : k = k₀ => hk h.symm]
        exact fun h => absurd h.symm hk
      by_cases hmem : k ∈ ks
      · rw [if_pos hmem, if_pos (this.mpr hmem)]
      · rw [if_neg hmem, if_neg (fun h => hmem (this.mp h))]

theorem lookupRecs_canonMap (l : List DNSRecord) (k : String) :
    lookupRecs (canonMap l) k = if k ∈ keyList l then some (groupFor l k) else none :=
  lookupRecs_map (groupFor l) (keyList l) k

/-! # Permutation utilities for flattened per-key outputs -/

theorem perm_flatten_congr {α β : Type} (l : List α) (f g : α → List β)
    (h : ∀ a ∈ l, List.Perm (f a) (g a)) :
    List.Perm (l.map f).flatten (l.map g).flatten := by
  induction l with
  | nil => simp
  | cons a l ih =>
    simp only [List.map_cons, List.flatten_cons]
    exact List.Perm.append (h a (List.mem_cons_self a l))
      (ih (fun x hx => h x (List.mem_cons_of_mem a hx)))

theorem flatten_map_append_perm {α β : Type} (l : List α) (f g : α → List β) :
    List.Perm ((l.map (fun x => f x ++ g x)).flatten)
      ((l.map f).flatten ++ (l.map g).flatten) := by
  induction l with
  | nil => simp
  | cons a l ih =>
    simp only [List.map_cons, List.flatten_cons]
    have step1 : List.Perm (f a ++ g a ++ ((l.map (fun x => f x ++ g x)).flatten))
        (f a ++ g a ++ ((l.map f).flatten ++ (l.map g).flatten)) :=
      List.Perm.append_left _ ih
    have step2 : List.Perm (f a ++ g a ++ ((l.map f).flatten ++ (l.map g).flatten))
        (f a ++ ((l.map f).flatten ++ (g a ++ (l.map g).flatten))) := by
      rw [List.append_assoc]
      apply List.Perm.append_left
      rw [← List.append_assoc, ← List.append_assoc]
      exact List.Perm.append_right _ List.perm_append_comm
    have step3 : f a ++ ((l.map f).flatten ++ (g a ++ (l.map g).flatten))
        = f a ++ (l.map f).flatten ++ (g a ++ (l.map g).flatten) := by
      rw [List.append_assoc]
    exact step3 ▸ (step1.trans step2)

theorem flatten_map_ite_nil {α β : Type} (l : List α) (p : α → Bool) (f : α → β) :
    (l.map (fun a => if p a then [] else [f a])).flatten
      = (l.filter (fun a => !p a)).map f := by
  induction l with
  | nil => simp
  | cons a l ih =>
    by_cases h : p a <;> simp [h, ih]

theorem flatten_map_singleton {α β : Type} (l : List α) (f : α → β) :
    (l.map (fun a => [f a])).flatten = l.map f := by
  induction l with
  | nil => simp
  | cons a l ih => simp [ih]

theorem flatten_map_split2 {α β : Type} (l : List α) (c d : α → Bool) (g f : α → β) :
    List.Perm ((l.map (fun a => if c a then (if d a then [] else [f a]) else [g a])).flatten)
      (((l.filter (fun a => !c a)).map g) ++ ((l.filter (fun a => c a && !d a)).map f)) := by
  induction l with
  | nil => simp
  | cons a l ih =>
    by_cases hc : c a
    · by_cases hd : d a
      · simpa [hc, hd] using ih
      · simp only [List.map_cons, List.flatten_cons, hc, hd, if_true, if_false,
          List.filter_cons, Bool.not_true, Bool.not_false]
        simp only [hc, hd, Bool.not_true, Bool.not_false, Bool.and_true, Bool.and_false]
        refine List.Perm.trans ?_ List.perm_middle.symm
        simpa [hc, hd] using List.Perm.cons (f a) ih
    · simp only [List.map_cons, List.flatten_cons, hc, if_false, List.filter_cons]
      simp only [hc, Bool.not_false, Bool.false_and, if_true, if_false]
      simpa using List.Perm.cons (g a) ih

theorem filter_mem_cons_perm (l : List DNSRecord) (k : String) (ks : List String)
    (hnotin : k ∉ ks) :
    List.Perm (l.filter (fun r => decide (keyOf r ∈ k :: ks)))
      (groupFor l k ++ l.filter (fun r => decide (keyOf r ∈ ks))) := by
  have hsplit := List.filter_append_perm (fun r => keyOf r == k)
    (l.filter (fun r => decide (keyOf r ∈ k :: ks)))
  rw [List.filter_filter, List.filter_filter] at hsplit
  have h1 : (l.filter fun a => (keyOf a == k) && decide (keyOf a ∈ k :: ks)) = groupFor l k := by
    apply List.filter_congr
    intro a _
    apply bool_eq_of_iff
    simp only [groupFor, Bool.and_eq_true, beq_iff_eq, decide_eq_true_eq, List.mem_cons]
    constructor
    · rintro ⟨h, _⟩; exact h
    · intro h; exact ⟨h, Or.inl h⟩
  have h2 : (l.filter fun a => (!(keyOf a == k)) && decide (keyOf a ∈ k :: ks))
      = l.filter (fun r => decide (keyOf r ∈ ks)) := by
    apply List.filter_congr
    intro a _
    apply bool_eq_of_iff
    simp only [Bool.and_eq_true, Bool.not_eq_true', beq_eq_false_iff_ne, ne_eq,
      decide_eq_true_eq, List.mem_cons]
    constructor
    · rintro ⟨hne, h | h⟩
      · exact absurd h hne
      · exact h
    · intro h
      exact ⟨fun he => hnotin (he ▸ h), Or.inr h⟩
  rw [h1, h2] at hsplit
  exact hsplit.symm

theorem partition_flatten (l : List DNSRecord) (h : DNSRecord → List String) :
    ∀ ks : List String, ks.Nodup →
      List.Perm ((ks.map (fun k => ((groupFor l k).map h).flatten)).flatten)
        ((l.filter (fun r => decide (keyOf r ∈ ks))).map h).flatten := by
  intro ks
  induction ks with
  | nil => simp
  | cons k ks ih =>
    intro hnd
    simp only [List.map_cons, List.flatten_cons]
    have hnotin : k ∉ ks := (List.nodup_cons.mp hnd).1
    have hperm := (filter_mem_cons_perm l k ks hnotin).map h |>.flatten
    refine List.Perm.trans ?_ hperm.symm
    rw [List.map_append, List.flatten_append]
    exact List.Perm.append_left _ (ih (List.nodup_cons.mp hnd).2)

theorem partition_flatten_cover (l : List DNSRecord) (h : DNSRecord → List String)
    (ks : List String) (hnd : ks.Nodup) (hcov : ∀ r ∈ l, keyOf r ∈ ks) :
    List.Perm ((ks.map (fun k => ((groupFor l k).map h).flatten)).flatten)
      ((l.map h).flatten) := by
  have := partition_flatten l h ks hnd
  rwa [List.filter_eq_self.mpr (fun a ha => by simpa using hcov a ha)] at this

/-! # The detector output as a permutation of its canonical description -/

theorem decide_mem_keyList_eq_hasKeyIn (n : List DNSRecord) (r : DNSRecord) :
    decide (keyOf r ∈ keyList n) = hasKeyIn n r := by
  apply bool_eq_of_iff
  simp only [decide_eq_true_eq, mem_keyList, hasKeyIn_iff]

theorem hasKeyIn_true_of (o : List DNSRecord) {k : String} {r : DNSRecord}
    (hr : keyOf r = k) (hk : k ∈ keyList o) : hasKeyIn o r = true := by
  rw [hasKeyIn_iff]
  obtain ⟨x, hx, hkey⟩ := mem_keyList.mp hk
  exact ⟨x, hx, by rw [hkey, hr]⟩

theorem hasKeyIn_false_of (o : List DNSRecord) {k : String} {r : DNSRecord}
    (hr : keyOf r = k) (hk : k ∉ keyList o) : hasKeyIn o r = false := by
  apply Bool.eq_false_iff.mpr
  intro h
  obtain ⟨x, hx, hkey⟩ := hasKeyIn_iff.mp h
  exact hk (mem_keyList.mpr ⟨x, hx, hkey.trans hr⟩)

theorem createValueMap_groupFor (o : List DNSRecord) {k : String} {r : DNSRecord}
    (hr : keyOf r = k) : createValueMap (groupFor o k) r.value = hasValueIn o r := by
  apply bool_eq_of_iff
  simp only [createValueMap, List.any_eq_true, hasValueIn_iff, beq_iff_eq]
  constructor
  · rintro ⟨x, hx, hv⟩
    have hm := mem_groupFor.mp hx
    exact ⟨x, hm.1, by rw [hm.2, hr], hv⟩
  · rintro ⟨x, hx, hkey, hv⟩
    exact ⟨x, mem_groupFor.mpr ⟨hx, by rw [hkey, hr]⟩, hv⟩

theorem dAM_per_key (o n : List DNSRecord) (k : String) :
    (match lookupRecs (canonMap o) k with
     | some oldRecs => detectValueChanges oldRecs (groupFor n k)
     | none => formatNewRecordChanges (groupFor n k))
    = ((groupFor n k).map (newOrAddedEntries o)).flatten
      ++ ((groupFor o k).map (removedEntries n)).flatten := by
  rw [lookupRecs_canonMap]
  by_cases hko : k ∈ keyList o
  · rw [if_pos hko]
    simp only [detectValueChanges]
    congr 1
    · have h1 : ((groupFor n k).map (newOrAddedEntries o)).flatten
          = ((groupFor n k).map (fun r => if hasValueIn o r then [] else [fmtAdded r])).flatten := by
        congr 1
        apply List.map_congr_left
        intro r hrm
        have hr := (mem_groupFor.mp hrm).2
        simp [newOrAddedEntries, hasKeyIn_true_of o hr hko]
      rw [h1, flatten_map_ite_nil]
      congr 1
      apply List.filter_congr
      intro r hrm
      rw [createValueMap_groupFor o (mem_groupFor.mp hrm).2]
    · symm
      rw [show removedEntries n
          = (fun r => if hasValueIn n r then ([] : List String) else [fmtRemoved r]) from rfl,
        flatten_map_ite_nil]
      congr 1
      apply List.filter_congr
      intro r hrm
      rw [createValueMap_groupFor n (mem_groupFor.mp hrm).2]
  · rw [if_neg hko]
    have hgo : groupFor o k = [] := groupFor_eq_nil_of_not_mem_keyList hko
    rw [hgo]
    simp only [List.map_nil, List.flatten_nil, List.append_nil, formatNewRecordChanges]
    have h1 : ((groupFor n k).map (newOrAddedEntries o))
        = ((groupFor n k).map (fun r => [fmtNew r])) := by
      apply List.map_congr_left
      intro r hrm
      have hr := (mem_groupFor.mp hrm).2
      simp [newOrAddedEntries, hasKeyIn_false_of o hr hko]
    rw [h1, flatten_map_singleton]

theorem dDel_per_key (o n : List DNSRecord) (k : String) :
    (if (lookupRecs (canonMap n) k).isSome then []
     else (groupFor o k).map fmtDeleted)
    = ((groupFor o k).map (deletedEntries n)).flatten := by
  rw [lookupRecs_canonMap]
  by_cases hkn : k ∈ keyList n
  · rw [if_pos hkn]
    simp only [Option.isSome_some, if_true]
    symm
    rw [List.flatten_eq_nil_iff]
    intro x hx
    obtain ⟨r, hrm, rfl⟩ := List.mem_map.mp hx
    simp [deletedEntries, hasKeyIn_true_of n (mem_groupFor.mp hrm).2 hkn]
  · rw [if_neg hkn]
    simp only [Option.isSome_none, Bool.false_eq_true, if_false]
    have h1 : ((groupFor o k).map (deletedEntries n))
        = ((groupFor o k).map (fun r => [fmtDeleted r])) := by
      apply List.map_congr_left
      intro r hrm
      simp [deletedEntries, hasKeyIn_false_of n (mem_groupFor.mp hrm).2 hkn]
    rw [h1, flatten_map_singleton]

theorem unsorted_perm_canon (o n : List DNSRecord) :
    List.Perm (unsortedChanges o n) (canonChanges o n) := by
  have hdam : detectAddedAndModifiedRecords (canonMap o) (canonMap n)
      = ((keyList n).map (fun k =>
          ((groupFor n k).map (newOrAddedEntries o)).flatten
            ++ ((groupFor o k).map (removedEntries n)).flatten)).flatten := by
    unfold detectAddedAndModifiedRecords
    rw [show canonMap n = (keyList n).map (fun k => (k, groupFor n k)) from rfl, List.map_map]
    congr 1
    apply List.map_congr_left
    intro k _
    simp only [Function.comp]
    exact dAM_per_key o n k
  have hddel : detectDeletedRecords (canonMap o) (canonMap n)
      = ((keyList o).map (fun k => ((groupFor o k).map (deletedEntries n)).flatten)).flatten := by
    unfold detectDeletedRecords
    rw [show canonMap o = (keyList o).map (fun k => (k, groupFor o k)) from rfl, List.map_map]
    congr 1
    apply List.map_congr_left
    intro k _
    simp only [Function.comp]
    exact dDel_per_key o n k
  unfold unsortedChanges
  rw [buildRecordMap_eq, buildRecordMap_eq, hdam, hddel]
  have hcov_n : ∀ r ∈ n, keyOf r ∈ keyList n := fun r hr => mem_keyList.mpr ⟨r, hr, rfl⟩
  have hcov_o : ∀ r ∈ o, keyOf r ∈ keyList o := fun r hr => mem_keyList.mpr ⟨r, hr, rfl⟩
  -- new-snapshot side
  have h1 := flatten_map_append_perm (keyList n)
    (fun k => ((groupFor n k).map (newOrAddedEntries o)).flatten)
    (fun k => ((groupFor o k).map (removedEntries n)).flatten)
  have h2 := partition_flatten_cover n (newOrAddedEntries o) (keyList n) (keyList_nodup n) hcov_n
  have h3 := partition_flatten o (removedEntries n) (keyList n) (keyList_nodup n)
  have h3' : (o.filter (fun r => decide (keyOf r ∈ keyList n))) = o.filter (fun r => hasKeyIn n r) :=
    List.filter_congr (fun r _ => decide_mem_keyList_eq_hasKeyIn n r)
  rw [h3'] at h3
  have h5 : List.Perm ((n.map (newOrAddedEntries o)).flatten)
      (((n.filter (fun r => !hasKeyIn o r)).map fmtNew)
        ++ ((n.filter (fun r => hasKeyIn o r && !hasValueIn o r)).map fmtAdded)) := by
    have := flatten_map_split2 n (hasKeyIn o) (hasValueIn o) fmtNew fmtAdded
    rw [show (fun r => if hasKeyIn o r = true then
          (if hasValueIn o r = true then ([] : List String) else [fmtAdded r])
        else [fmtNew r]) = newOrAddedEntries o from rfl] at this
    exact this
  have h6 : ((o.filter (fun r => hasKeyIn n r)).map (removedEntries n)).flatten
      = (o.filter (fun r => hasKeyIn n r && !hasValueIn n r)).map fmtRemoved := by
    rw [show removedEntries n
        = (fun r => if hasValueIn n r then ([] : List String) else [fmtRemoved r]) from rfl,
      flatten_map_ite_nil, List.filter_filter]
    congr 1
    apply List.filter_congr
    intro r _
    exact Bool.and_comm _ _
  have h7 := partition_flatten_cover o (deletedEntries n) (keyList o) (keyList_nodup o) hcov_o
  have h8 : (o.map (deletedEntries n)).flatten
      = (o.filter (fun r => !hasKeyIn n r)).map fmtDeleted := by
    rw [show deletedEntries n
        = (fun r => if hasKeyIn n r then ([] : List String) else [fmtDeleted r]) from rfl,
      flatten_map_ite_nil]
  have hleft : List.Perm
      (((keyList n).map (fun k =>
          ((groupFor n k).map (newOrAddedEntries o)).flatten
            ++ ((groupFor o k).map (removedEntries n)).flatten)).flatten)
      ((((n.filter (fun r => !hasKeyIn o r)).map fmtNew)
          ++ ((n.filter (fun r => hasKeyIn o r && !hasValueIn o r)).map fmtAdded))
        ++ (o.filter (fun r => hasKeyIn n r && !hasValueIn n r)).map fmtRemoved) :=
    h1.trans (List.Perm.append (h2.trans h5) (h3.trans (by rw [h6])))
  have hright : List.Perm
      (((keyList o).map (fun k => ((groupFor o k).map (deletedEntries n)).flatten)).flatten)
      ((o.filter (fun r => !hasKeyIn n r)).map fmtDeleted) :=
    h7.trans (by rw [h8])
  have := List.Perm.append hleft hright
  unfold canonChanges
  exact this

/-! # Sorting consequences and canonical-form corollaries -/

theorem detectChanges_sorted (o n : List DNSRecord) :
    List.Sorted (· ≤ ·) (DetectChanges o n) :=
  List.sorted_insertionSort _ _

theorem insertionSort_eq_of_perm {l₁ l₂ : List String} (h : List.Perm l₁ l₂) :
    List.insertionSort (· ≤ ·) l₁ = List.insertionSort (· ≤ ·) l₂ :=
  List.eq_of_perm_of_sorted
    ((List.perm_insertionSort _ l₁).trans (h.trans (List.perm_insertionSort _ l₂).symm))
    (List.sorted_insertionSort _ _) (List.sorted_insertionSort _ _)

theorem canonChanges_self (X : List DNSRecord) : canonChanges X X = [] := by
  unfold canonChanges
  have hkey : ∀ r ∈ X, hasKeyIn X r = true :=
    fun r hr => hasKeyIn_iff.mpr ⟨r, hr, rfl⟩
  have hval : ∀ r ∈ X, hasValueIn X r = true :=
    fun r hr => hasValueIn_iff.mpr ⟨r, hr, rfl, rfl⟩
  have h1 : X.filter (fun r => !hasKeyIn X r) = [] :=
    List.filter_eq_nil_iff.mpr (fun r hr => by simp [hkey r hr])
  have h2 : X.filter (fun r => hasKeyIn X r && !hasValueIn X r) = [] :=
    List.filter_eq_nil_iff.mpr (fun r hr => by simp [hval r hr])
  rw [h1, h2]
  simp

theorem detectChanges_self (X : List DNSRecord) : DetectChanges X X = [] := by
  have h : unsortedChanges X X = [] :=
    List.perm_nil.mp ((unsorted_perm_canon X X).trans (by rw [canonChanges_self]))
  rw [DetectChanges, h]
  simp

theorem swapTag_new (s : String) : swapTag ("NEW: " ++ s) = "DELETED: " ++ s := by
  cases s
  rfl

theorem swapTag_added (s : String) : swapTag ("ADDED: " ++ s) = "REMOVED: " ++ s := by
  cases s
  rfl

theorem swapTag_removed (s : String) : swapTag ("REMOVED: " ++ s) = "ADDED: " ++ s := by
  cases s
  rfl

theorem swapTag_deleted (s : String) : swapTag ("DELETED: " ++ s) = "NEW: " ++ s := by
  cases s
  rfl

theorem perm_four_rev {α : Type} (A B C D : List α) :
    List.Perm (A ++ B ++ C ++ D) (D ++ C ++ B ++ A) := by
  have step1 : List.Perm (A ++ B ++ C ++ D) (D ++ (A ++ B ++ C)) := List.perm_append_comm
  have step2 : List.Perm (A ++ B ++ C) (C ++ (B ++ A)) :=
    List.perm_append_comm.trans (List.Perm.append_left C List.perm_append_comm)
  have := step1.trans (List.Perm.append_left D step2)
  simpa [List.append_assoc] using this

theorem map_swapTag_canon (o n : List DNSRecord) :
    List.Perm ((canonChanges o n).map swapTag) (canonChanges n o) := by
  unfold canonChanges
  simp only [List.map_append, List.map_map]
  have e1 : (n.filter (fun r => !hasKeyIn o r)).map (swapTag ∘ fmtNew)
      = (n.filter (fun r => !hasKeyIn o r)).map fmtDeleted :=
    List.map_congr_left (fun r _ => swapTag_new (entryBody r))
  have e2 : (n.filter (fun r => hasKeyIn o r && !hasValueIn o r)).map (swapTag ∘ fmtAdded)
      = (n.filter (fun r => hasKeyIn o r && !hasValueIn o r)).map fmtRemoved :=
    List.map_congr_left (fun r _ => swapTag_added (entryBody r))
  have e3 : (o.filter (fun r => hasKeyIn n r && !hasValueIn n r)).map (swapTag ∘ fmtRemoved)
      = (o.filter (fun r => hasKeyIn n r && !hasValueIn n r)).map fmtAdded :=
    List.map_congr_left (fun r _ => swapTag_removed (entryBody r))
  have e4 : (o.filter (fun r => !hasKeyIn n r)).map (swapTag ∘ fmtDeleted)
      = (o.filter (fun r => !hasKeyIn n r)).map fmtNew :=
    List.map_congr_left (fun r _ => swapTag_deleted (entryBody r))
  rw [e1, e2, e3, e4]
  exact perm_four_rev _ _ _ _

theorem hasKeyIn_congr {o o' : List DNSRecord} (h : List.Perm o o') (r : DNSRecord) :
    hasKeyIn o r = hasKeyIn o' r := by
  apply bool_eq_of_iff
  rw [hasKeyIn_iff, hasKeyIn_iff]
  constructor
  · rintro ⟨x, hx, hk⟩; exact ⟨x, h.mem_iff.mp hx, hk⟩
  · rintro ⟨x, hx, hk⟩; exact ⟨x, h.mem_iff.mpr hx, hk⟩

theorem hasValueIn_congr {o o' : List DNSRecord} (h : List.Perm o o') (r : DNSRecord) :
    hasValueIn o r = hasValueIn o' r := by
  apply bool_eq_of_iff
  rw [hasValueIn_iff, hasValueIn_iff]
  constructor
  · rintro ⟨x, hx, hk⟩; exact ⟨x, h.mem_iff.mp hx, hk⟩
  · rintro ⟨x, hx, hk⟩; exact ⟨x, h.mem_iff.mpr hx, hk⟩

theorem canonChanges_perm_congr {o o' n n' : List DNSRecord}
    (ho : List.Perm o o') (hn : List.Perm n n') :
    List.Perm (canonChanges o n) (canonChanges o' n') := by
  unfold canonChanges
  refine List.Perm.append (List.Perm.append (List.Perm.append ?_ ?_) ?_) ?_
  · rw [List.filter_congr (fun r _ => by rw [hasKeyIn_congr ho r])]
    exact (hn.filter _).map _
  · rw [List.filter_congr (fun r _ => by rw [hasKeyIn_congr ho r, hasValueIn_congr ho r])]
    exact (hn.filter _).map _
  · rw [List.filter_congr (fun r _ => by rw [hasKeyIn_congr hn r, hasValueIn_congr hn r])]
    exact (ho.filter _).map _
  · rw [List.filter_congr (fun r _ => by rw [hasKeyIn_congr hn r])]
    exact (ho.filter _).map _

/-! # TTL-blindness of the detector -/

theorem keyOf_of_strip_eq {r r' : DNSRecord} (h : stripTTL r = stripTTL r') :
    keyOf r = keyOf r' := by
  simp only [stripTTL, Prod.mk.injEq] at h
  simp [keyOf, formatRecordKey, h.1, h.2.1]

theorem value_of_strip_eq {r r' : DNSRecord} (h : stripTTL r = stripTTL r') :
    r.value = r'.value := by
  simp only [stripTTL, Prod.mk.injEq] at h
  exact h.2.2

theorem entryBody_of_strip_eq {r r' : DNSRecord} (h : stripTTL r = stripTTL r') :
    entryBody r = entryBody r' := by
  simp only [stripTTL, Prod.mk.injEq] at h
  simp [entryBody, h.1, h.2.1, h.2.2]

theorem hasKeyIn_strip_congr {o o' : List DNSRecord} {r r' : DNSRecord}
    (ho : o.map stripTTL = o'.map stripTTL) (hr : stripTTL r = stripTTL r') :
    hasKeyIn o r = hasKeyIn o' r' := by
  apply bool_eq_of_iff
  rw [hasKeyIn_iff, hasKeyIn_iff]
  have key_r : keyOf r = keyOf r' := keyOf_of_strip_eq hr
  constructor
  · rintro ⟨x, hx, hk⟩
    have : stripTTL x ∈ o'.map stripTTL := ho ▸ List.mem_map_of_mem stripTTL hx
    obtain ⟨y, hy, hyx⟩ := List.mem_map.mp this
    exact ⟨y, hy, (keyOf_of_strip_eq hyx).trans (hk.trans key_r)⟩
  · rintro ⟨x, hx, hk⟩
    have : stripTTL x ∈ o.map stripTTL := ho.symm ▸ List.mem_map_of_mem stripTTL hx
    obtain ⟨y, hy, hyx⟩ := List.mem_map.mp this
    exact ⟨y, hy, (keyOf_of_strip_eq hyx).trans (hk.trans key_r.symm)⟩

theorem hasValueIn_strip_congr {o o' : List DNSRecord} {r r' : DNSRecord}
    (ho : o.map stripTTL = o'.map stripTTL) (hr : stripTTL r = stripTTL r') :
    hasValueIn o r = hasValueIn o' r' := by
  apply bool_eq_of_iff
  rw [hasValueIn_iff, hasValueIn_iff]
  have key_r : keyOf r = keyOf r' := keyOf_of_strip_eq hr
  have val_r : r.value = r'.value := value_of_strip_eq hr
  constructor
  · rintro ⟨x, hx, hk, hv⟩
    have : stripTTL x ∈ o'.map stripTTL := ho ▸ List.mem_map_of_mem stripTTL hx
    obtain ⟨y, hy, hyx⟩ := List.mem_map.mp this
    exact ⟨y, hy, (keyOf_of_strip_eq hyx).trans (hk.trans key_r),
      (value_of_strip_eq hyx).trans (hv.trans val_r)⟩
  · rintro ⟨x, hx, hk, hv⟩
    have : stripTTL x ∈ o.map stripTTL := ho.symm ▸ List.mem_map_of_mem stripTTL hx
    obtain ⟨y, hy, hyx⟩ := List.mem_map.mp this
    exact ⟨y, hy, (keyOf_of_strip_eq hyx).trans (hk.trans key_r.symm),
      (value_of_strip_eq hyx).trans (hv.trans val_r.symm)⟩

theorem lockstep_filter_map {l l' : List DNSRecord} (p p' : DNSRecord → Bool)
    (f f' : DNSRecord → String)
    (hl : l.map stripTTL = l'.map stripTTL)
    (hpf : ∀ r r', stripTTL r = stripTTL r' → p r = p' r' ∧ f r = f' r') :
    (l.filter p).map f = (l'.filter p').map f' := by
  induction l generalizing l' with
  | nil =>
    have : l' = [] := by
      cases l' with
      | nil => rfl
      | cons a t => simp at hl
    simp [this]
  | cons r t ih =>
    cases l' with
    | nil => simp at hl
    | cons r' t' =>
      simp only [List.map_cons, List.cons.injEq] at hl
      obtain ⟨hhead, htail⟩ := hl
      obtain ⟨hp, hf⟩ := hpf r r' hhead
      simp only [List.filter_cons]
      by_cases h : p r
      · rw [if_pos (by simpa using h), if_pos (by simp [← hp, h]), List.map_cons,
          List.map_cons, hf, ih htail]
      · rw [if_neg (by simpa using h), if_neg (by simp [← hp, h]), ih htail]

theorem canonChanges_strip_congr {o o' n n' : List DNSRecord}
    (ho : o.map stripTTL = o'.map stripTTL) (hn : n.map stripTTL = n'.map stripTTL) :
    canonChanges o n = canonChanges o' n' := by
  unfold canonChanges
  congr 1
  · congr 1
    · congr 1
      · exact lockstep_filter_map _ _ _ _ hn (fun r r' h =>
          ⟨by rw [hasKeyIn_strip_congr ho h], by
            simp [fmtNew, entryBody_of_strip_eq h]⟩)
      · exact lockstep_filter_map _ _ _ _ hn (fun r r' h =>
          ⟨by rw [hasKeyIn_strip_congr ho h, hasValueIn_strip_congr ho h], by
            simp [fmtAdded, entryBody_of_strip_eq h]⟩)
    · exact lockstep_filter_map _ _ _ _ ho (fun r r' h =>
        ⟨by rw [hasKeyIn_strip_congr hn h, hasValueIn_strip_congr hn h], by
          simp [fmtRemoved, entryBody_of_strip_eq h]⟩)
  · exact lockstep_filter_map _ _ _ _ ho (fun r r' h =>
      ⟨by rw [hasKeyIn_strip_congr hn h], by
        simp [fmtDeleted, entryBody_of_strip_eq h]⟩)

/-! # Lexicographic position of the change tags -/

theorem fmtAdded_le_fmtRemoved (r r' : DNSRecord) : fmtAdded r ≤ fmtRemoved r' := by
  apply le_of_lt
  show ("ADDED: " ++ entryBody r) < ("REMOVED: " ++ entryBody r')
  rw [String.lt_iff_toList_lt]
  have h1 : ("ADDED: " ++ entryBody r).toList
      = 'A' :: 'D' :: 'D' :: 'E' :: 'D' :: ':' :: ' ' :: (entryBody r).toList := by
    cases entryBody r
    rfl
  have h2 : ("REMOVED: " ++ entryBody r').toList
      = 'R' :: 'E' :: 'M' :: 'O' :: 'V' :: 'E' :: 'D' :: ':' :: ' ' :: (entryBody r').toList := by
    cases entryBody r'
    rfl
  rw [h1, h2]
  exact List.Lex.rel (by decide)

theorem mem_detectChanges_iff_canon {o n : List DNSRecord} {s : String} :
    s ∈ DetectChanges o n ↔ s ∈ canonChanges o n := by
  rw [DetectChanges]
  rw [(List.perm_insertionSort (· ≤ ·) (unsortedChanges o n)).mem_iff]
  exact (unsorted_perm_canon o n).mem_iff

theorem detectChanges_entry_tagged {o n : List DNSRecord} {s : String}
    (h : s ∈ DetectChanges o n) :
    ∃ b, s = "NEW: " ++ b ∨ s = "ADDED: " ++ b ∨ s = "REMOVED: " ++ b ∨ s = "DELETED: " ++ b := by
  have hc := mem_detectChanges_iff_canon.mp h
  unfold canonChanges at hc
  rcases List.mem_append.mp hc with hc | hc
  · rcases List.mem_append.mp hc with hc | hc
    · rcases List.mem_append.mp hc with hc | hc
      · obtain ⟨r, _, rfl⟩ := List.mem_map.mp hc
        exact ⟨entryBody r, Or.inl rfl⟩
      · obtain ⟨r, _, rfl⟩ := List.mem_map.mp hc
        exact ⟨entryBody r, Or.inr (Or.inl rfl)⟩
    · obtain ⟨r, _, rfl⟩ := List.mem_map.mp hc
      exact ⟨entryBody r, Or.inr (Or.inr (Or.inl rfl))⟩
  · obtain ⟨r, _, rfl⟩ := List.mem_map.mp hc
    exact ⟨entryBody r, Or.inr (Or.inr (Or.inr rfl))⟩

theorem canonChanges_pair {r₁ r₂ : DNSRecord} (hkey : keyOf r₁ = keyOf r₂)
    (hval : r₁.value ≠ r₂.value) :
    canonChanges [r₁] [r₂] = [fmtAdded r₂, fmtRemoved r₁] := by
  have hk12 : hasKeyIn [r₁] r₂ = true := hasKeyIn_iff.mpr ⟨r₁, by simp, hkey⟩
  have hk21 : hasKeyIn [r₂] r₁ = true := hasKeyIn_iff.mpr ⟨r₂, by simp, hkey.symm⟩
  have hv12 : hasValueIn [r₁] r₂ = false := by
    apply Bool.eq_false_iff.mpr
    intro h
    obtain ⟨x, hx, _, hv⟩ := hasValueIn_iff.mp h
    rw [List.mem_singleton.mp hx] at hv
    exact hval hv
  have hv21 : hasValueIn [r₂] r₁ = false := by
    apply Bool.eq_false_iff.mpr
    intro h
    obtain ⟨x, hx, _, hv⟩ := hasValueIn_iff.mp h
    rw [List.mem_singleton.mp hx] at hv
    exact hval hv.symm
  unfold canonChanges
  rw [List.filter_singleton, List.filter_singleton, List.filter_singleton,
    List.filter_singleton]
  simp [hk12, hk21, hv12, hv21]

theorem detectChanges_pair {r₁ r₂ : DNSRecord} (hkey : keyOf r₁ = keyOf r₂)
    (hval : r₁.value ≠ r₂.value) :
    DetectChanges [r₁] [r₂] = [fmtAdded r₂, fmtRemoved r₁] := by
  have hperm : List.Perm (unsortedChanges [r₁] [r₂]) [fmtAdded r₂, fmtRemoved r₁] :=
    (unsorted_perm_canon [r₁] [r₂]).trans (by rw [canonChanges_pair hkey hval])
  rw [DetectChanges, insertionSort_eq_of_perm hperm]
  apply List.eq_of_perm_of_sorted (List.perm_insertionSort _ _)
    (List.sorted_insertionSort _ _)
  rw [List.sorted_cons]
  constructor
  · intro b hb
    rw [List.mem_singleton.mp hb]
    exact fmtAdded_le_fmtRemoved r₂ r₁
  · simp

/-! # Retry executor lemmas -/

theorem retryAux_all_fail (f : Nat → GoError) (cErr : GoError) (attempts : Nat) :
    ∀ (remaining i : Nat) (lastErr : Option GoError), 1 ≤ remaining →
      retryAux (fun _ j => ((), some (f j))) neverCancelled cErr attempts i remaining () lastErr
        = ((), some (GoError.wrap ("operation failed after " ++ toString attempts ++ " attempts")
            (f (i + remaining - 1))), i + remaining) := by
  intro remaining
  induction remaining with
  | zero => intro i lastErr h; exact absurd h (by omega)
  | succ rem ih =>
    intro i lastErr _
    simp only [retryAux, neverCancelled, Bool.false_eq_true, if_false]
    cases rem with
    | zero =>
      simp only [retryAux, retryAggregateErr]
      have h1 : i + 1 - 1 = i := by omega
      rw [h1]
    | succ rem' =>
      rw [ih (i + 1) (some (f i)) (by omega)]
      have h1 : i + 1 + (rem' + 1) - 1 = i + (rem' + 1 + 1) - 1 := by omega
      have h2 : i + 1 + (rem' + 1) = i + (rem' + 1 + 1) := by omega
      rw [h1, h2]

theorem retry_all_fail (f : Nat → GoError) (cErr : GoError) (attempts : Nat)
    (h : 1 ≤ attempts) :
    RetryWithExponentialBackoff (fun _ j => ((), some (f j))) neverCancelled cErr attempts ()
      = ((), some (GoError.wrap ("operation failed after " ++ toString attempts ++ " attempts")
          (f (attempts - 1))), attempts) := by
  rw [RetryWithExponentialBackoff, retryAux_all_fail f cErr attempts attempts 0 none h]
  simp

theorem retryAux_succeeds (f : Nat → Option GoError) (cErr : GoError) (attempts : Nat) :
    ∀ (m remaining i : Nat) (lastErr : Option GoError),
      m < remaining →
      (∀ j, j < m → (f (i + j)).isSome) →
      f (i + m) = none →
      retryAux (fun _ j => ((), f j)) neverCancelled cErr attempts i remaining () lastErr
        = ((), none, i + m + 1) := by
  intro m
  induction m with
  | zero =>
    intro remaining i lastErr hrem _ hsucc
    cases remaining with
    | zero => omega
    | succ rem =>
      have hfi : f i = none := by simpa using hsucc
      simp only [retryAux, hfi]
  | succ m ih =>
    intro remaining i lastErr hrem hfail hsucc
    cases remaining with
    | zero => omega
    | succ rem =>
      have hfi : (f i).isSome := by
        have := hfail 0 (by omega)
        simpa using this
      obtain ⟨e, he⟩ := Option.isSome_iff_exists.mp hfi
      simp only [retryAux, he, neverCancelled, Bool.false_eq_true, if_false]
      rw [ih rem (i + 1) (some e) (by omega)
        (fun j hj => by
          have := hfail (j + 1) (by omega)
          have harith : i + (j + 1) = i + 1 + j := by omega
          rwa [harith] at this)
        (by
          have harith : i + (m + 1) = i + 1 + m := by omega
          rwa [harith] at hsucc)]
      have harith : i + 1 + m + 1 = i + (m + 1) + 1 := by omega
      rw [harith]

theorem retry_succeeds (f : Nat → Option GoError) (cErr : GoError) (attempts n : Nat)
    (h1 : 1 ≤ n) (h2 : n ≤ attempts)
    (hfail : ∀ j, j < n - 1 → (f j).isSome) (hsucc : f (n - 1) = none) :
    RetryWithExponentialBackoff (fun _ j => ((), f j)) neverCancelled cErr attempts ()
      = ((), none, n) := by
  rw [RetryWithExponentialBackoff,
    retryAux_succeeds f cErr attempts (n - 1) attempts 0 none (by omega)
      (fun j hj => by simpa using hfail j hj) (by simpa using hsucc)]
  have harith : 0 + (n - 1) + 1 = n := by omega
  rw [harith]

/-! # Deduplication lemmas -/

theorem mem_dedupAux : ∀ (l seen : List String) (x : String),
    x ∈ dedupAux seen l ↔ x ∈ l ∧ x ∉ seen := by
  intro l
  induction l with
  | nil => simp [dedupAux]
  | cons a t ih =>
    intro seen x
    simp only [dedupAux]
    by_cases h : a ∈ seen
    · rw [if_pos h, ih]
      constructor
      · rintro ⟨hx, hns⟩
        exact ⟨List.mem_cons_of_mem _ hx, hns⟩
      · rintro ⟨hx, hns⟩
        rcases List.mem_cons.mp hx with rfl | hx
        · exact absurd h hns
        · exact ⟨hx, hns⟩
    · rw [if_neg h]
      simp only [List.mem_cons, ih]
      constructor
      · rintro (rfl | ⟨hx, hns⟩)
        · exact ⟨Or.inl rfl, h⟩
        · exact ⟨Or.inr hx, fun hs => hns (Or.inr hs)⟩
      · rintro ⟨rfl | hx, hns⟩
        · exact Or.inl rfl
        · by_cases hxa : x = a
          · exact Or.inl hxa
          · exact Or.inr ⟨hx, fun hs => hs.elim hxa hns⟩

theorem nodup_dedupAux : ∀ (l seen : List String), (dedupAux seen l).Nodup := by
  intro l
  induction l with
  | nil => intro seen; simp [dedupAux]
  | cons a t ih =>
    intro seen
    simp only [dedupAux]
    by_cases h : a ∈ seen
    · rw [if_pos h]
      exact ih seen
    · rw [if_neg h]
      rw [List.nodup_cons]
      refine ⟨fun hmem => ?_, ih (a :: seen)⟩
      exact ((mem_dedupAux t (a :: seen) a).mp hmem).2 (List.mem_cons_self a seen)

theorem deduplicate_nodup (l : List String) : (deduplicate l).Nodup :=
  nodup_dedupAux l []

theorem mem_deduplicate (l : List String) (x : String) : x ∈ deduplicate l ↔ x ∈ l := by
  rw [deduplicate, mem_dedupAux]
  simp

/-! # Fetch loop lemmas -/

theorem fetchPairStep_eq (env : FetchEnv) (acc : List DNSRecord) (d t : String) :
    fetchPairStep env acc d t = acc ++ queryAnswers env d t := by
  unfold fetchPairStep queryAnswers
  rcases h : queryDNS env d t with ⟨resp, err⟩
  cases err with
  | some e => simp
  | none =>
    cases resp with
    | none => simp
    | some m => by_cases hr : m.rcode == 0 <;> simp [hr]

theorem foldl_fetchStep (env : FetchEnv) (d : String) :
    ∀ (ts : List String) (acc : List DNSRecord),
      ts.foldl (fun a t => fetchPairStep env a d t) acc
        = acc ++ (ts.map (fun t => queryAnswers env d t)).flatten := by
  intro ts
  induction ts with
  | nil => simp
  | cons t ts ih =>
    intro acc
    rw [List.foldl_cons, fetchPairStep_eq, ih]
    simp [List.append_assoc]

theorem foldl_fetchDomains (env : FetchEnv) :
    ∀ (ds : List String) (acc : List DNSRecord),
      ds.foldl (fun acc d => recordTypes.foldl (fun a t => fetchPairStep env a d t) acc) acc
        = acc ++ (ds.map (fun d =>
            (recordTypes.map (fun t => queryAnswers env d t)).flatten)).flatten := by
  intro ds
  induction ds with
  | nil => simp
  | cons d ds ih =>
    intro acc
    rw [List.foldl_cons, foldl_fetchStep, ih]
    simp [List.append_assoc]

theorem fetch_eq_collected (env : FetchEnv) (config : Config) :
    FetchDNSRecords env config = (fetchCollected env config, none) := by
  unfold FetchDNSRecords fetchCollected
  rw [foldl_fetchDomains]
  simp

/-! # Claim theorems -/

/-- C1: a value change within an existing key is reported as exactly one
`ADDED` entry for the new value and one `REMOVED` entry for the old value (in
sorted order `ADDED` first), and every entry of every `DetectChanges` output
carries one of the four tags `NEW`/`ADDED`/`REMOVED`/`DELETED` — in particular
no `MODIFIED` entry is ever emitted. -/
theorem C1_value_change_added_removed_pair :
    (∀ (t nm v₁ v₂ : String) (ttl₁ ttl₂ : Nat), v₁ ≠ v₂ →
      DetectChanges [⟨t, nm, v₁, ttl₁⟩] [⟨t, nm, v₂, ttl₂⟩]
        = [fmtAdded ⟨t, nm, v₂, ttl₂⟩, fmtRemoved ⟨t, nm, v₁, ttl₁⟩])
    ∧ (∀ (o n : List DNSRecord) (s : String), s ∈ DetectChanges o n →
        ∃ b, s = "NEW: " ++ b ∨ s = "ADDED: " ++ b ∨ s = "REMOVED: " ++ b
          ∨ s = "DELETED: " ++ b) := by
  constructor
  · intro t nm v₁ v₂ ttl₁ ttl₂ hv
    exact detectChanges_pair rfl hv
  · intro o n s h
    exact detectChanges_entry_tagged h

/-- Witness for C1 at the spec's §8 example, plus the tag shape of a concrete
`NEW` entry. -/
theorem C1_value_change_added_removed_pair_witness :
    (DetectChanges [⟨"MX", "example.com.", "10 mail.example.com.", 3600⟩]
        [⟨"MX", "example.com.", "20 mail2.example.com.", 3600⟩]
      = ["ADDED: MX example.com. -> 20 mail2.example.com.",
         "REMOVED: MX example.com. -> 10 mail.example.com."])
    ∧ ∃ b, "NEW: TXT example.com. -> v=spf1 -all" = "NEW: " ++ b
        ∨ "NEW: TXT example.com. -> v=spf1 -all" = "ADDED: " ++ b
        ∨ "NEW: TXT example.com. -> v=spf1 -all" = "REMOVED: " ++ b
        ∨ "NEW: TXT example.com. -> v=spf1 -all" = "DELETED: " ++ b := by
  constructor
  · have h := C1_value_change_added_removed_pair.1 "MX" "example.com."
      "10 mail.example.com." "20 mail2.example.com." 3600 3600 (by decide)
    rw [h]
    rfl
  · exact C1_value_change_added_removed_pair.2 []
      [⟨"TXT", "example.com.", "v=spf1 -all", 300⟩]
      "NEW: TXT example.com. -> v=spf1 -all" (by decide)

/-- C2: `DetectChanges(X, X) = []` for every snapshot `X`, duplicates and
multi-record groups included. -/
theorem C2_detect_idempotent : ∀ X : List DNSRecord, DetectChanges X X = [] :=
  detectChanges_self

/-- C3: swapping the two snapshots inverts every tag pairwise:
sorting the tag-swapped output of `DetectChanges old new` yields exactly
`DetectChanges new old`. -/
theorem C3_detect_swap_symmetry (o n : List DNSRecord) :
    List.insertionSort (· ≤ ·) ((DetectChanges o n).map swapTag) = DetectChanges n o := by
  have hperm : List.Perm ((DetectChanges o n).map swapTag) (unsortedChanges n o) :=
    (((List.perm_insertionSort _ (unsortedChanges o n)).map swapTag).trans
      ((unsorted_perm_canon o n).map swapTag)).trans
      ((map_swapTag_canon o n).trans (unsorted_perm_canon n o).symm)
  rw [show DetectChanges n o = List.insertionSort (· ≤ ·) (unsortedChanges n o) from rfl]
  exact insertionSort_eq_of_perm hperm

/-- C4: the change list is lexicographically sorted, and it is invariant under
any permutation of either input record list — the output is fully
deterministic given the two snapshots. -/
theorem C4_detect_sorted_deterministic (o o' n n' : List DNSRecord)
    (ho : List.Perm o o') (hn : List.Perm n n') :
    DetectChanges o n = DetectChanges o' n'
    ∧ List.Sorted (· ≤ ·) (DetectChanges o n) := by
  constructor
  · show List.insertionSort (· ≤ ·) (unsortedChanges o n)
      = List.insertionSort (· ≤ ·) (unsortedChanges o' n')
    apply insertionSort_eq_of_perm
    exact (unsorted_perm_canon o n).trans
      ((canonChanges_perm_congr ho hn).trans (unsorted_perm_canon o' n').symm)
  · exact detectChanges_sorted o n

/-- Witness for C4 at permuted concrete snapshots. -/
theorem C4_detect_sorted_deterministic_witness :
    DetectChanges [⟨"MX", "example.com.", "10 mail.example.com.", 3600⟩,
        ⟨"TXT", "example.com.", "v=spf1 -all", 300⟩] []
      = DetectChanges [⟨"TXT", "example.com.", "v=spf1 -all", 300⟩,
        ⟨"MX", "example.com.", "10 mail.example.com.", 3600⟩] []
    ∧ List.Sorted (· ≤ ·)
        (DetectChanges [⟨"MX", "example.com.", "10 mail.example.com.", 3600⟩,
          ⟨"TXT", "example.com.", "v=spf1 -all", 300⟩] []) :=
  C4_detect_sorted_deterministic _ _ _ _
    (List.Perm.swap _ _ []) (List.Perm.refl [])

/-- C5: the enumerator output never contains duplicates, and it contains
exactly the candidate names (base-derived, selector-derived, subdomain-derived
and custom), so duplicate inputs — also across categories — collapse to a
single entry. -/
theorem C5_enumerator_nodup (config : Config) :
    (generateDomainsToCheck config).Nodup
    ∧ ∀ s : String, s ∈ generateDomainsToCheck config ↔ s ∈ rawDomainsToCheck config :=
  ⟨deduplicate_nodup _, fun s => mem_deduplicate _ s⟩

/-- C6 counterexample: with the caller's context cancelled during every retry
wait, the very first query aborts with `ctx.Err()` — cancellation mid-retry
did occur — yet `FetchDNSRecords` still returns its collected records (here
empty) with a `nil` error: it never returns a hard failure, contradicting the
claimed "non-nil error iff cancelled mid-retry". -/
theorem C6_fetch_counterexample :
    queryDNS envCancelAll "example.com" "MX" = (none, some ctxCanceledErr)
    ∧ FetchDNSRecords envCancelAll cfgExample = ([], none) := by
  constructor
  · rfl
  · rfl

/-- C6 (amended): `FetchDNSRecords` is best-effort and total — it always
returns exactly the records collected from the successful queries together
with a `nil` error; a failed `(domain, kind)` pair (retries exhausted, or
context cancelled mid-retry, which aborts only that pair's query) is skipped
and never aborts the overall fetch. -/
theorem C6_fetch_best_effort (env : FetchEnv) (config : Config) :
    FetchDNSRecords env config = (fetchCollected env config, none) :=
  fetch_eq_collected env config

/-- C7: an operation failing on every invocation is invoked exactly
`attempts` times; the returned aggregate error wraps the error of the final
invocation and its message cites the attempt count. -/
theorem C7_retry_all_failures (f : Nat → GoError) (attempts : Nat) (h : 1 ≤ attempts) :
    RetryWithExponentialBackoff (fun _ j => ((), some (f j))) neverCancelled ctxCanceledErr
        attempts ()
      = ((), some (GoError.wrap ("operation failed after " ++ toString attempts ++ " attempts")
          (f (attempts - 1))), attempts)
    ∧ (GoError.wrap ("operation failed after " ++ toString attempts ++ " attempts")
        (f (attempts - 1))).errorMsg
      = "operation failed after " ++ toString attempts ++ " attempts: "
        ++ (f (attempts - 1)).errorMsg := by
  refine ⟨retry_all_fail f ctxCanceledErr attempts h, ?_⟩
  show ("operation failed after " ++ toString attempts ++ " attempts") ++ ": "
      ++ (f (attempts - 1)).errorMsg = _
  apply String.ext
  simp [String.data_append, List.append_assoc]

/-- Witness for C7: mirrors `TestRetryWithExponentialBackoff_AllFailures`. -/
theorem C7_retry_all_failures_witness :
    RetryWithExponentialBackoff
        (fun _ _ => ((), some (GoError.simple "permanent failure")))
        neverCancelled ctxCanceledErr 3 ()
      = ((), some (GoError.wrap "operation failed after 3 attempts"
          (GoError.simple "permanent failure")), 3)
    ∧ (GoError.wrap "operation failed after 3 attempts"
        (GoError.simple "permanent failure")).errorMsg
      = "operation failed after 3 attempts: permanent failure" := by
  have h := C7_retry_all_failures (fun _ => GoError.simple "permanent failure") 3 (by decide)
  exact ⟨h.1, rfl⟩

/-- C8: an operation failing on its first `n - 1` invocations and succeeding
on invocation `n ≤ attempts` makes the retry executor return success with
exactly `n` invocations performed. -/
theorem C8_retry_eventual_success (f : Nat → Option GoError) (attempts n : Nat)
    (h1 : 1 ≤ n) (h2 : n ≤ attempts)
    (hfail : ∀ j, j < n - 1 → (f j).isSome) (hsucc : f (n - 1) = none) :
    RetryWithExponentialBackoff (fun _ j => ((), f j)) neverCancelled ctxCanceledErr attempts ()
      = ((), none, n) :=
  retry_succeeds f ctxCanceledErr attempts n h1 h2 hfail hsucc

/-- Witness for C8: fails twice then succeeds with `attempts = 5`, exactly 3
invocations — mirrors `TestRetryWithExponentialBackoff_EventualSuccess`. -/
theorem C8_retry_eventual_success_witness :
    RetryWithExponentialBackoff
        (fun _ j => ((), if j < 2 then some (GoError.simple "failure") else none))
        neverCancelled ctxCanceledErr 5 ()
      = ((), none, 3) :=
  C8_retry_eventual_success
    (fun j => if j < 2 then some (GoError.simple "failure") else none) 5 3
    (by decide) (by decide)
    (fun j hj => by simp [show j < 2 from by omega])
    (by decide)

/-- C9: in a cycle with a successful fetch, a non-empty change list advances
the in-memory previous state to the new snapshot with a save attempted and a
change notification sent — for every persistence outcome, including failure,
which at most triggers the optional error notification; an empty change list
leaves the state untouched with no save and no notification. -/
theorem C9_state_advances_despite_save_failure (env : CheckEnv)
    (prev current : List DNSRecord) (hfetch : env.fetchResult = (current, none)) :
    (DetectChanges prev current ≠ [] →
      (performCheck env prev).prevState = current
        ∧ (performCheck env prev).saveAttempted = true
        ∧ (performCheck env prev).changeNotificationSent = true
        ∧ (performCheck env prev).errorNotificationSent
            = (env.saveResult.isSome && env.notifyOnErrors))
    ∧ (DetectChanges prev current = [] →
      performCheck env prev
        = { prevState := prev, saveAttempted := false, changeNotificationSent := false,
            errorNotificationSent := false }) := by
  constructor
  · intro hne
    have hlen : 0 < (DetectChanges prev current).length := List.length_pos.mpr hne
    simp [performCheck, hfetch, hlen]
  · intro heq
    simp [performCheck, hfetch, heq]

/-- Witness for C9: a failing save with a real change still advances the
state; an unchanged snapshot produces no side effects. -/
theorem C9_state_advances_despite_save_failure_witness :
    (DetectChanges [] [⟨"MX", "example.com.", "10 mail.example.com.", 3600⟩] ≠ []
      ∧ (performCheck
            ⟨([⟨"MX", "example.com.", "10 mail.example.com.", 3600⟩], none),
              some (GoError.simple "disk full"), true⟩ []).prevState
          = [⟨"MX", "example.com.", "10 mail.example.com.", 3600⟩]
      ∧ (performCheck
            ⟨([⟨"MX", "example.com.", "10 mail.example.com.", 3600⟩], none),
              some (GoError.simple "disk full"), true⟩ []).saveAttempted = true)
    ∧ performCheck
          ⟨([⟨"MX", "example.com.", "10 mail.example.com.", 3600⟩], none), none, true⟩
          [⟨"MX", "example.com.", "10 mail.example.com.", 3600⟩]
        = { prevState := [⟨"MX", "example.com.", "10 mail.example.com.", 3600⟩],
            saveAttempted := false, changeNotificationSent := false,
            errorNotificationSent := false } := by
  constructor
  · have h := (C9_state_advances_despite_save_failure
      ⟨([⟨"MX", "example.com.", "10 mail.example.com.", 3600⟩], none),
        some (GoError.simple "disk full"), true⟩
      [] [⟨"MX", "example.com.", "10 mail.example.com.", 3600⟩] rfl).1 (by decide)
    exact ⟨by decide, h.1, h.2.1⟩
  · exact (C9_state_advances_despite_save_failure
      ⟨([⟨"MX", "example.com.", "10 mail.example.com.", 3600⟩], none), none, true⟩
      [⟨"MX", "example.com.", "10 mail.example.com.", 3600⟩]
      [⟨"MX", "example.com.", "10 mail.example.com.", 3600⟩] rfl).2
      (detectChanges_self _)

/-- C10: the detector is TTL-blind — snapshot pairs that agree record-wise on
`(Type, Name, Value)` produce identical change lists, and a TTL-only change
between otherwise identical snapshots produces the empty change list (no
alert). -/
theorem C10_ttl_irrelevant (o o' n n' : List DNSRecord)
    (ho : o.map stripTTL = o'.map stripTTL) (hn : n.map stripTTL = n'.map stripTTL) :
    DetectChanges o n = DetectChanges o' n'
    ∧ (n.map stripTTL = o.map stripTTL → DetectChanges o n = []) := by
  constructor
  · show List.insertionSort (· ≤ ·) (unsortedChanges o n)
      = List.insertionSort (· ≤ ·) (unsortedChanges o' n')
    apply insertionSort_eq_of_perm
    exact (unsorted_perm_canon o n).trans
      ((canonChanges_strip_congr ho hn) ▸ (unsorted_perm_canon o' n').symm)
  · intro hno
    have h0 : canonChanges o n = [] := by
      rw [canonChanges_strip_congr (rfl : o.map stripTTL = o.map stripTTL) hno,
        canonChanges_self]
    have hnil : unsortedChanges o n = [] :=
      List.perm_nil.mp ((unsorted_perm_canon o n).trans (by rw [h0]))
    rw [DetectChanges, hnil]
    simp

/-- Witness for C10: a pure TTL change on an A record yields no alert and the
same output as the TTL-equal pair. -/
theorem C10_ttl_irrelevant_witness :
    DetectChanges [⟨"A", "example.com.", "192.0.2.1", 3600⟩]
        [⟨"A", "example.com.", "192.0.2.1", 60⟩]
      = DetectChanges [⟨"A", "example.com.", "192.0.2.1", 3600⟩]
        [⟨"A", "example.com.", "192.0.2.1", 3600⟩]
    ∧ DetectChanges [⟨"A", "example.com.", "192.0.2.1", 3600⟩]
        [⟨"A", "example.com.", "192.0.2.1", 60⟩] = [] := by
  have h := C10_ttl_irrelevant
    [⟨"A", "example.com.", "192.0.2.1", 3600⟩] [⟨"A", "example.com.", "192.0.2.1", 3600⟩]
    [⟨"A", "example.com.", "192.0.2.1", 60⟩] [⟨"A", "example.com.", "192.0.2.1", 3600⟩]
    (by decide) (by decide)
  exact ⟨h.1, h.2 (by decide)⟩

end DnsMonitor
